import Mathlib

/-!
Verification development for the podman machine-lifecycle core.

The Lean definitions below are a shallow embedding of the Go sources:
  * `src/pkg/machine/qemu/command.go` (command synthesis, legacy connection
    registry `AddConnection`/`RemoveConnections` of package `machine`),
  * `src/pkg/machine/applehv/machine.go` (the `MacMachine` lifecycle:
    `Start`, `Stop`, `Set`, `Remove`, `writeConfig`),
  * `src/unnamed/part_003` (the connections-file registry:
    `addConnection`, `setNewDefaultConnection`, `RemoveConnections`,
    `UpdateConnectionIfDefault`).

Go `string` is Lean `String`; a Go `error` result is `Option MachineErr`
(`none` = Go `nil`); fallible functions return `Except MachineErr _`.
Go maps are association lists (`List (String × _)`); a possibly-`nil` Go map
is `Option (List (String × _))` since the sources branch on map nil-ness.
Go map iteration order is unspecified; the embedding fixes insertion order,
so "the first entry of the map" is the head of the association list.
External effects (the vfkit state query, `os.WriteFile` failures, process
spawning) are passed in as explicit parameters or recorded as result fields.
-/

namespace Podman

/-! ## Files and basic machine data (`machine.VMFile`) -/

structure VMFile where
  Path : String
deriving DecidableEq, Repr

def VMFile.GetPath (f : VMFile) : String := f.Path

/-! ## QEMU command synthesis (`src/pkg/machine/qemu/command.go`)

Each Go `ToCmdline` is translated statement by statement; the Go guard
`len(vars) > 0` is written `vars ≠ ""` (equivalent for Go strings). -/

structure FirmwareConfigDevice where
  Name : String
  IgnitionFile : VMFile
  ConfigString : String
deriving DecidableEq, Repr

def FirmwareConfigDevice.ToCmdline (f : FirmwareConfigDevice) : List String :=
  let args : List String := ["-fw_cfg"]
  let vars : String := ""
  let vars := if f.Name ≠ "" then vars ++ ("name=" ++ f.Name) else vars
  let ignPath := f.IgnitionFile.GetPath
  let vars := if ignPath ≠ "" then
      (if vars ≠ "" then vars ++ "," else vars) ++ ("file=" ++ ignPath)
    else vars
  let vars := if f.ConfigString ≠ "" then
      (if vars ≠ "" then vars ++ "," else vars) ++ ("string=" ++ f.ConfigString)
    else vars
  args ++ [vars]

structure Monitor where
  Network : String
  Address : VMFile
deriving DecidableEq, Repr

structure QmpMonitor where
  Monitor : Monitor
  Server : Bool
  Wait : Bool
deriving DecidableEq, Repr

def QmpMonitor.GetServerStatus (q : QmpMonitor) : String :=
  if q.Server then "on" else "off"

def QmpMonitor.GetWaitStatus (q : QmpMonitor) : String :=
  if q.Wait then "on" else "off"

def QmpMonitor.ToCmdline (q : QmpMonitor) : List String :=
  let args : List String := ["-qmp"]
  let vars : String := ""
  let vars := if q.Monitor.Network ≠ "" ∧ q.Monitor.Address.GetPath ≠ "" then
      vars ++ (q.Monitor.Network ++ (":" ++ q.Monitor.Address.GetPath))
    else vars
  let vars := (if vars ≠ "" then vars ++ "," else vars) ++ ("server=" ++ q.GetServerStatus)
  let vars := (if vars ≠ "" then vars ++ "," else vars) ++ ("wait=" ++ q.GetWaitStatus)
  args ++ [vars]

structure Socket where
  ID : String
  FileDescriptor : Int
deriving DecidableEq, Repr

def Socket.ToCmdline (s : Socket) : String :=
  let vars : String := "socket"
  let vars := vars ++ ",id=vlan"
  let vars := if s.FileDescriptor ≥ 0 then vars ++ (",fd=" ++ toString s.FileDescriptor) else vars
  vars

structure VirtioNet where
  NetDevice : String
  MacAddress : String
deriving DecidableEq, Repr

def VirtioNet.ToCmdline (v : VirtioNet) : String :=
  let vars : String := "virtio-net-pci"
  let vars := if v.NetDevice ≠ "" then vars ++ (",netdev=" ++ v.NetDevice) else vars
  let vars := if v.MacAddress ≠ "" then vars ++ (",mac=" ++ v.MacAddress) else vars
  vars

structure Network where
  Socket : Socket
  VirtioNet : VirtioNet
deriving DecidableEq, Repr

def Network.ToCmdline (n : Network) : List String :=
  ["-netdev", n.Socket.ToCmdline, "-device", n.VirtioNet.ToCmdline]

structure CharDev where
  SocketPath : VMFile
  Server : Bool
  Wait : Bool
  ID : String
deriving DecidableEq, Repr

def CharDev.GetWaitStatus (c : CharDev) : String :=
  if c.Wait then "on" else "off"

def CharDev.ToCmdline (c : CharDev) : List String :=
  let vars : String := ""
  let vars := if c.SocketPath.GetPath ≠ "" then vars ++ ("socket,path=" ++ c.SocketPath.GetPath) else vars
  let vars := (if vars ≠ "" then vars ++ "," else vars) ++ ("server=" ++ ("on" ++ (",wait=" ++ c.GetWaitStatus)))
  let vars := if vars ≠ "" then vars ++ "," else vars
  ["-chardev", vars ++ ("id=a" ++ ("podman-machine-default" ++ "_ready"))]

structure VirtSerialPort where
  Name : String
  CharDev : String
deriving DecidableEq, Repr

def VirtSerialPort.ToCmdline (v : VirtSerialPort) : List String :=
  let vars : String := "virtserialport"
  let vars := if v.CharDev ≠ "" then vars ++ (",chardev=" ++ v.CharDev) else vars
  let vars := if v.Name ≠ "" then vars ++ (",name=" ++ v.Name) else vars
  ["-device", vars]

structure SerialPort where
  PidFile : VMFile
  CharDev : CharDev
  VirtSerialPort : VirtSerialPort
deriving DecidableEq, Repr

def SerialPort.ToCmdline (s : SerialPort) : List String :=
  let args : List String := ["-device", "virtio-serial"]
  let args := args ++ s.CharDev.ToCmdline
  let args := args ++ s.VirtSerialPort.ToCmdline
  let args := args ++ ["-pidfile", s.PidFile.GetPath]
  args

structure Virtfs where
  Path : VMFile
  MountTag : String
  SecurityModel : String
  ReadOnly : Bool
deriving DecidableEq, Repr

def Virtfs.ToCmdline (v : Virtfs) : List String :=
  let vars : String := "local"
  let vars := if v.Path.GetPath ≠ "" then vars ++ (",path=" ++ v.Path.GetPath) else vars
  let vars := if v.MountTag ≠ "" then vars ++ (",mount_tag=" ++ v.MountTag) else vars
  let vars := if v.SecurityModel ≠ "" then vars ++ (",security_model=" ++ v.SecurityModel) else vars
  let vars := if v.ReadOnly then vars ++ ",readonly" else vars
  ["-virtfs", vars]

structure QemuCmd where
  Memory : Int
  CPUs : Int
  CPU : String
  Bios : String
  BootableImage : String
  Display : Bool
  Accelerator : String
  Machine : String
  Mounts : List Virtfs
  FirmwareConfigs : List FirmwareConfigDevice
  QmpMonitor : QmpMonitor
  Network : Network
  SerialPort : SerialPort
deriving DecidableEq, Repr

def QemuCmd.ToCmdline (q : QemuCmd) : List String :=
  let args : List String := []
  let args := args ++ ["-m", toString q.Memory]
  let args := args ++ ["-smp", toString q.CPUs]
  let args := q.FirmwareConfigs.foldl (fun a fwCfgDev => a ++ fwCfgDev.ToCmdline) args
  let args := args ++ q.QmpMonitor.ToCmdline
  let args := args ++ q.Network.ToCmdline
  let args := args ++ q.SerialPort.ToCmdline
  let args := q.Mounts.foldl (fun a mount => a ++ mount.ToCmdline) args
  let args := if q.Display then args ++ ["-display", "true"] else args ++ ["-display", "none"]
  let args := args ++ ["-accel", q.Accelerator]
  let args := args ++ ["-cpu", q.CPU]
  let args := args ++ ["-drive", "if=virtio,file=" ++ q.BootableImage]
  let args := if q.Bios ≠ "" then args ++ ["-bios", q.Bios] else args
  let args := args ++ ["-M", q.Machine]
  args

/-! ## Spec-side fragment descriptions for claim C5

`joinComma` is the spec's "non-empty sub-fields joined with single commas,
no leading or trailing comma". The `presentSubfields` functions list, in
declaration order, exactly the sub-fields the source emits. -/

def joinComma : List String → String
  | [] => ""
  | [x] => x
  | x :: y :: xs => x ++ ("," ++ joinComma (y :: xs))

def FirmwareConfigDevice.presentSubfields (f : FirmwareConfigDevice) : List String :=
  (if f.Name ≠ "" then ["name=" ++ f.Name] else []) ++
  (if f.IgnitionFile.GetPath ≠ "" then ["file=" ++ f.IgnitionFile.GetPath] else []) ++
  (if f.ConfigString ≠ "" then ["string=" ++ f.ConfigString] else [])

def QmpMonitor.presentSubfields (q : QmpMonitor) : List String :=
  (if q.Monitor.Network ≠ "" ∧ q.Monitor.Address.GetPath ≠ "" then
      [q.Monitor.Network ++ (":" ++ q.Monitor.Address.GetPath)]
    else []) ++
  ["server=" ++ q.GetServerStatus, "wait=" ++ q.GetWaitStatus]

def Socket.presentSubfields (s : Socket) : List String :=
  ["socket", "id=vlan"] ++
  (if s.FileDescriptor ≥ 0 then ["fd=" ++ toString s.FileDescriptor] else [])

def Virtfs.presentSubfields (v : Virtfs) : List String :=
  ["local"] ++
  (if v.Path.GetPath ≠ "" then ["path=" ++ v.Path.GetPath] else []) ++
  (if v.MountTag ≠ "" then ["mount_tag=" ++ v.MountTag] else []) ++
  (if v.SecurityModel ≠ "" then ["security_model=" ++ v.SecurityModel] else []) ++
  (if v.ReadOnly then ["readonly"] else [])

/-! ## Machine state, errors, filesystem model

`machine.Status` values are the strings `"running"`, `"stopped"`,
`"starting"`; `MachineErr` stands for the distinguished Go error values of
package `machine` plus `errors.New`/`fmt.Errorf` messages (`other`). -/

inductive Status where
  | running
  | stopped
  | starting
deriving DecidableEq, Repr

inductive MachineErr where
  | alreadyRunning
  | wrongState
  | noSuchVM
  | other (msg : String)
deriving DecidableEq, Repr

/-- Go `error` values as returned by value (Go `nil` is `none`). -/
abbrev GoError := Option MachineErr

/-! ## The applehv `MacMachine` record (`src/pkg/machine/applehv/machine.go`)

Only the fields the verified operations touch are embedded; embedded Go
structs (`ResourceConfig`, `SSHConfig`, `ImageConfig`) are flattened the
way Go embedding flattens their field names. -/

structure MacMachine where
  ConfigPath : VMFile
  IgnitionFile : VMFile
  ImagePath : VMFile
  ImageStream : String
  Name : String
  CPUs : Nat
  Memory : Nat
  DiskSize : Nat
  IdentityPath : String
  Port : Nat
  RemoteUsername : String
  Rootful : Bool
  Starting : Bool
deriving DecidableEq, Repr

/-- Contents of a host file: a serialized `MacMachine` record (what
`writeConfig` stores via `json.MarshalIndent`; marshalling round-trips, so
the model stores the record itself), or an uninterpreted blob (keys,
images, ignition payloads). -/
inductive FileContent where
  | record (m : MacMachine)
  | blob
deriving DecidableEq, Repr

/-- The host filesystem as a path-keyed association map. -/
abbrev HostFS := List (String × FileContent)

def eraseKey {α : Type} (k : String) : List (String × α) → List (String × α)
  | [] => []
  | (a, b) :: t => if a = k then t else (a, b) :: eraseKey k t

def alookup {α : Type} (k : String) : List (String × α) → Option α
  | [] => none
  | (a, b) :: t => if a = k then some b else alookup k t

def keysOfList {α : Type} (l : List (String × α)) : List String := l.map Prod.fst

def setFile (fs : HostFS) (p : String) (c : FileContent) : HostFS :=
  (p, c) :: eraseKey p fs

def getFile (fs : HostFS) (p : String) : Option FileContent := alookup p fs

/-! ## Legacy connection registry (package `machine`, in
`src/pkg/machine/qemu/command.go` lines 626-726)

`EngineCfg` stands for the `Engine` section of the containers-common
custom config: `ActiveService` (the default connection name) and
`ServiceDestinations` (a possibly-nil Go map, hence `Option`). -/

structure Destination where
  URI : String
  IsMachine : Bool
  Identity : String
deriving DecidableEq, Repr

structure EngineCfg where
  ActiveService : String
  ServiceDestinations : Option (List (String × Destination))
deriving DecidableEq, Repr

def mapLookup {α : Type} (k : String) : Option (List (String × α)) → Option α
  | none => none
  | some l => alookup k l

/-- Key of the first entry of an association map, or `""` when empty: the
`for k := range m { x = k; break }` idiom the registries use to pick an
arbitrary ("first") entry of a Go map. -/
def firstKeyD {α : Type} : List (String × α) → String
  | (k, _) :: _ => k
  | [] => ""

def keysOf {α : Type} : Option (List (String × α)) → List String
  | none => []
  | some l => keysOfList l

/-- `machine.AddConnection` (command.go line 641).  The write to the config
file is the returned `EngineCfg`; `uri.String()` is passed in already
rendered. -/
def legacyAddConnection (uriStr name identity : String) (isDefault : Bool)
    (cfg : EngineCfg) : Except MachineErr EngineCfg :=
  if identity = "" then .error (.other "identity must be defined")
  else match mapLookup name cfg.ServiceDestinations with
  | some _ => .error (.other "cannot overwrite connection")
  | none =>
    let active := if isDefault then name else cfg.ActiveService
    let dst : Destination := ⟨uriStr, true, identity⟩
    match cfg.ServiceDestinations with
    | none => .ok ⟨name, some [(name, dst)]⟩
    | some l => .ok ⟨active, some (l ++ [(name, dst)])⟩

/-- The per-name loop of `machine.RemoveConnections` (command.go line 702).
When the removed name was the default, Go resets `ActiveService` to `""`
and then to an arbitrary key of the map (`for ... break` over a Go map);
the embedding picks the head of the association list. -/
def legacyRemoveLoop (cfg : EngineCfg) : List String → Except MachineErr EngineCfg
  | [] => .ok cfg
  | name :: rest =>
    match cfg.ServiceDestinations with
    | none => .error (.other ("unable to find connection named \"" ++ name ++ "\""))
    | some l =>
      match alookup name l with
      | none => .error (.other ("unable to find connection named \"" ++ name ++ "\""))
      | some _ =>
        let conns := eraseKey name l
        let active := if cfg.ActiveService = name then firstKeyD conns
          else cfg.ActiveService
        legacyRemoveLoop ⟨active, some conns⟩ rest

def legacyRemoveConnections (cfg : EngineCfg) (names : List String) :
    Except MachineErr EngineCfg :=
  legacyRemoveLoop cfg names

/-- The applehv removal closure calls `machine.RemoveConnections` twice and
only logs failures (`logrus.Error`), so a failed removal leaves the
registry as it was. -/
def tryRemoveConnection (cfg : EngineCfg) (n : String) : EngineCfg :=
  match legacyRemoveConnections cfg [n] with
  | .ok c => c
  | .error _ => cfg

/-! ## MacMachine operations

The live VM state is owned by vfkit, so each operation takes the outcome
of the `m.State(false)` / `m.state()` query as an explicit
`Except MachineErr Status` parameter; a possible `os.WriteFile` failure of
`writeConfig` is the `writeErr : GoError` parameter (`none` = the write
succeeds and the file is replaced). -/

structure SetOptions where
  CPUs : Option Nat
  Memory : Option Nat
  DiskSize : Option Nat
deriving DecidableEq, Repr

structure SetResult where
  machine : MacMachine
  fs : HostFS
  errs : List GoError
  primary : GoError
deriving DecidableEq, Repr

/-- The error text of the disk-shrink validation error in `Set`. -/
def shrinkErr : MachineErr :=
  .other "new disk size smaller than existing disk size: cannot shrink disk size"

/-- The `switch len(setErrors)` epilogue of `MacMachine.Set` (machine.go
lines 387-396): zero errors are returned as-is, a single error is promoted,
and with two or more errors all but the last are returned as the list while
the last alone is promoted to the primary return value. -/
def dispatchSetErrors (setErrors : List GoError) : List GoError × GoError :=
  if setErrors.length = 0 then (setErrors, none)
  else if setErrors.length = 1 then ([], setErrors.headD none)
  else (setErrors.dropLast, setErrors.getLastD none)

/-- `MacMachine.Set` (machine.go line 357).  Mirrors the Go statement
order: state gate, CPU update, memory update, disk-size update (collecting
the shrink error instead of mutating), unconditional `writeConfig` whose
result — nil included — is appended to `setErrors`, then the switch. -/
def MacMachine.set (m : MacMachine) (stateQ : Except MachineErr Status)
    (opts : SetOptions) (fs : HostFS) (writeErr : GoError) : SetResult :=
  match stateQ with
  | .error e => ⟨m, fs, [], some e⟩
  | .ok vmState =>
    if vmState ≠ Status.stopped then ⟨m, fs, [], some .wrongState⟩
    else
      let m := match opts.CPUs with
        | some cpus => { m with CPUs := cpus }
        | none => m
      let m := match opts.Memory with
        | some mem => { m with Memory := mem }
        | none => m
      let step : MacMachine × List GoError := match opts.DiskSize with
        | some newSize =>
          if newSize < m.DiskSize then (m, [some shrinkErr])
          else ({ m with DiskSize := newSize }, [])
        | none => (m, [])
      let m := step.1
      let setErrors := step.2
      let fs := match writeErr with
        | none => setFile fs m.ConfigPath.Path (.record m)
        | some _ => fs
      let setErrors := setErrors ++ [writeErr]
      let dispatched := dispatchSetErrors setErrors
      ⟨m, fs, dispatched.1, dispatched.2⟩

structure StartResult where
  machine : MacMachine
  fs : HostFS
  vfkitInvoked : Bool
  err : GoError
deriving DecidableEq, Repr

/-- `MacMachine.Start` (machine.go line 417): state-query errors propagate;
a `Running` state fails with `machine.ErrVMAlreadyRunning` before anything
is touched; otherwise `VfkitHelper.startVfkit` is invoked (its outcome is
the `vfkitResult` parameter).  `Start` never writes the config file. -/
def MacMachine.start (m : MacMachine) (stateQ : Except MachineErr Status)
    (fs : HostFS) (vfkitResult : GoError) : StartResult :=
  match stateQ with
  | .error e => ⟨m, fs, false, some e⟩
  | .ok st =>
    if st = Status.running then ⟨m, fs, false, some .alreadyRunning⟩
    else ⟨m, fs, true, vfkitResult⟩

structure RemoveOptions where
  Force : Bool
  SaveKeys : Bool
  SaveIgnition : Bool
  SaveImage : Bool
deriving DecidableEq, Repr

/-- `MacMachine.Remove` (machine.go line 274) up to the returned
confirmation message and file list.  The actual deletions happen in the
returned closure, so this stage only validates state and collects paths.
When running with `Force`, `m.stop(true, true)` runs first (outcome
`stopResult`). -/
def MacMachine.remove (m : MacMachine) (stateQ : Except MachineErr Status)
    (opts : RemoveOptions) (stopResult : GoError) :
    Except MachineErr (String × List String) :=
  match stateQ with
  | .error e => .error e
  | .ok vmState =>
    let gate : Except MachineErr Unit :=
      if vmState = Status.running then
        if !opts.Force then .error (.other ("invalid state: " ++ m.Name ++ " is running"))
        else match stopResult with
          | some e => .error e
          | none => .ok ()
      else .ok ()
    gate.bind fun _ =>
      let files : List String :=
        (if !opts.SaveKeys then [m.IdentityPath, m.IdentityPath ++ ".pub"] else [])
        ++ (if !opts.SaveIgnition then [m.IgnitionFile.GetPath] else [])
        ++ (if !opts.SaveImage then [m.ImagePath.GetPath] else [])
        ++ [m.ConfigPath.GetPath]
      let confirmationMessage := "\nThe following files will be deleted:\n\n"
        ++ String.join (files.map (fun msg => msg ++ "\n")) ++ "\n"
      .ok (confirmationMessage, files)

/-- `Remove` followed by running the returned deletion closure (the
`machine remove` flow): on a validation error nothing is deleted; on
success every collected file is removed best-effort and the two
`machine.RemoveConnections` calls are applied, their failures only
logged. -/
def MacMachine.removeFlow (m : MacMachine) (stateQ : Except MachineErr Status)
    (opts : RemoveOptions) (stopResult : GoError) (fs : HostFS) (reg : EngineCfg) :
    HostFS × EngineCfg × Except MachineErr String :=
  match m.remove stateQ opts stopResult with
  | .error e => (fs, reg, .error e)
  | .ok (msg, files) =>
    let fs := files.foldl (fun acc f => eraseKey f acc) fs
    let reg := tryRemoveConnection (tryRemoveConnection reg m.Name) (m.Name ++ "-root")
    (fs, reg, .ok msg)

/-! ## Connections-file registry (`src/unnamed/part_003`, package
`connection`)

`ConnectionsFile` stands for `config.ConnectionsFile.Connection`: the
`Default` name plus the possibly-nil `Connections` map.
`config.EditConnectionConfig` aborts without writing when the edit
function errors, which `Except` models directly. -/

structure ConnectionsFile where
  Default : String
  Connections : Option (List (String × Destination))
deriving DecidableEq, Repr

structure ConnSpec where
  name : String
  uri : String
deriving DecidableEq, Repr

/-- The indexed loop body of `addConnection` (part_003 line 21): collision
check, `isDefault && i == 0` default selection, nil-map initialization
(which makes the entry default regardless of `isDefault`). -/
def addConnectionLoop (identity : String) (isDefault : Bool) :
    Nat → List ConnSpec → ConnectionsFile → Except MachineErr ConnectionsFile
  | _, [], cfg => .ok cfg
  | i, con :: rest, cfg =>
    match mapLookup con.name cfg.Connections with
    | some _ => .error (.other ("cannot overwrite connection \"" ++ con.name ++ "\""))
    | none =>
      let dst : Destination := ⟨con.uri, true, identity⟩
      let dflt := if isDefault ∧ i = 0 then con.name else cfg.Default
      match cfg.Connections with
      | none =>
        addConnectionLoop identity isDefault (i + 1) rest ⟨con.name, some [(con.name, dst)]⟩
      | some l =>
        addConnectionLoop identity isDefault (i + 1) rest ⟨dflt, some (l ++ [(con.name, dst)])⟩

def addConnection (cons : List ConnSpec) (identity : String) (isDefault : Bool)
    (cfg : ConnectionsFile) : Except MachineErr ConnectionsFile :=
  if identity = "" then .error (.other "identity must be defined")
  else addConnectionLoop identity isDefault 0 cons cfg

/-- The deletion loop of `setNewDefaultConnection` (part_003 line 105):
each name must be present and is deleted; deleting the current default
clears `Default` to `""`. -/
def snDeleteLoop (cfg : ConnectionsFile) : List String → Except MachineErr ConnectionsFile
  | [] => .ok cfg
  | name :: rest =>
    match mapLookup name cfg.Connections with
    | none => .error (.other ("unable to find connection named \"" ++ name ++ "\""))
    | some _ =>
      let conns := cfg.Connections.map (eraseKey name)
      let dflt := if cfg.Default = name then "" else cfg.Default
      snDeleteLoop ⟨dflt, conns⟩ rest

/-- `setNewDefaultConnection` (part_003 line 105): after the deletions the
new default is unconditionally set to the first entry of the remaining map
(Go iterates the map and breaks after one step; the embedding takes the
list head), and that entry is reported through `dest`/`service`.  When no
entry remains, `Default` keeps its post-deletion value and `dest`/`service`
keep their zero values (`none` / `""`). -/
def setNewDefaultConnection (cfg : ConnectionsFile) (names : List String) :
    Except MachineErr (ConnectionsFile × Option Destination × String) :=
  (snDeleteLoop cfg names).map fun cfg1 =>
    match cfg1.Connections with
    | some ((k, d) :: _) => (⟨k, cfg1.Connections⟩, some d, k)
    | _ => (cfg1, none, "")

/-- `UpdateConnectionIfDefault` (part_003 line 72). -/
def updateConnectionIfDefault (rootful : Bool) (name rootfulName : String)
    (cfg : ConnectionsFile) : ConnectionsFile :=
  if name = cfg.Default ∧ rootful then { cfg with Default := rootfulName }
  else if rootfulName = cfg.Default ∧ ¬rootful then { cfg with Default := name }
  else cfg

/-- `RemoveConnections` (part_003 line 86), the connections-file variant:
runs `setNewDefaultConnection` inside the scoped edit, then — when the
newly picked default is a machine connection listed in `machines` — flips
the default between the rootless/rootful pair. -/
def removeConnectionsCF (machines : List (String × Bool)) (cfg : ConnectionsFile)
    (names : List String) : Except MachineErr ConnectionsFile :=
  match setNewDefaultConnection cfg names with
  | .error e => .error e
  | .ok (cfg1, dest, service) =>
    match alookup service machines, dest with
    | some rootful, some d =>
      if d.IsMachine then .ok (updateConnectionIfDefault rootful service (service ++ "-root") cfg1)
      else .ok cfg1
    | _, _ => .ok cfg1

/-- Spec-side fixed fragment order of `QemuCmd.ToCmdline` for claim C4:
memory, cpu count, firmware configs, monitor, network, serial, mounts,
display, accelerator, cpu model, boot drive, bios, machine type. -/
def QemuCmd.orderedFragments (q : QemuCmd) : List String :=
  ["-m", toString q.Memory, "-smp", toString q.CPUs]
  ++ (q.FirmwareConfigs.map FirmwareConfigDevice.ToCmdline).flatten
  ++ q.QmpMonitor.ToCmdline
  ++ q.Network.ToCmdline
  ++ q.SerialPort.ToCmdline
  ++ (q.Mounts.map Virtfs.ToCmdline).flatten
  ++ ["-display", if q.Display then "true" else "none"]
  ++ ["-accel", q.Accelerator, "-cpu", q.CPU,
      "-drive", "if=virtio,file=" ++ q.BootableImage]
  ++ ["-bios", q.Bios]
  ++ ["-M", q.Machine]


/-- Fully populated device model used to instantiate C4's theorem. -/
def sampleQemuCmd : QemuCmd where
  Memory := 2048
  CPUs := 2
  CPU := "host"
  Bios := "/usr/share/edk2/aarch64/QEMU_EFI.fd"
  BootableImage := "/vm/boot.qcow2"
  Display := false
  Accelerator := "kvm"
  Machine := "virt,gic-version=max"
  Mounts := [⟨⟨"/Users"⟩, "vol0", "none", true⟩]
  FirmwareConfigs := [⟨"opt/com.coreos/config", ⟨"/vm/box.ign"⟩, ""⟩]
  QmpMonitor := ⟨⟨"unix", ⟨"/vm/qmp.sock"⟩⟩, true, false⟩
  Network := ⟨⟨"", 3⟩, ⟨"vlan", "5a:94:ef:e4:0c:ee"⟩⟩
  SerialPort := ⟨⟨"/vm/vm.pid"⟩, ⟨⟨"/vm/ready.sock"⟩, false, false, "a"⟩, ⟨"ready", "charchannel"⟩⟩

/-- Concrete machine record used to instantiate the lifecycle theorems. -/
def sampleMac : MacMachine where
  ConfigPath := ⟨"/conf/box.json"⟩
  IgnitionFile := ⟨"/conf/box.ign"⟩
  ImagePath := ⟨"/data/box.img"⟩
  ImageStream := "testing"
  Name := "box"
  CPUs := 2
  Memory := 2048
  DiskSize := 20
  IdentityPath := "/keys/box"
  Port := 22
  RemoteUsername := "core"
  Rootful := false
  Starting := false

/-- Concrete machine-origin destinations used to instantiate the registry
theorems. -/
def dstA : Destination := ⟨"ssh://core@gateway:22/run/user/1000/podman/podman.sock", true, "/keys/a"⟩

def dstB : Destination := ⟨"ssh://core@gateway:22/run/user/1001/podman/podman.sock", true, "/keys/b"⟩

/-- The Connection Registry invariant of the spec for the connections-file
registry: a non-empty default names an entry present in the mapping. -/
def invarCF (c : ConnectionsFile) : Prop :=
  c.Default = "" ∨ c.Default ∈ keysOf c.Connections

/-- The same invariant for the legacy registry. -/
def invarE (c : EngineCfg) : Prop :=
  c.ActiveService = "" ∨ c.ActiveService ∈ keysOf c.ServiceDestinations

/-- Strong post-state of a legacy removal that touched the default: the
default names a present entry, or is `""` with nothing remaining. -/
def strandedDefault (c : EngineCfg) : Prop :=
  c.ActiveService ∈ keysOf c.ServiceDestinations ∨
    (c.ActiveService = "" ∧ keysOf c.ServiceDestinations = [])

/-! ## Helper lemmas -/

theorem append_ne_empty_left (p s : String) (hp : p ≠ "") : p ++ s ≠ "" := by
  intro h
  cases p with
  | mk pd =>
    cases s with
    | mk sd =>
      apply hp
      have h2 : pd ++ sd = [] := congrArg String.data h
      have h3 : pd = [] := (List.append_eq_nil.mp h2).1
      simp [h3]

theorem append_root_ne (k : String) : k ++ "-root" ≠ k := by
  intro h
  have h2 := congrArg String.length h
  rw [String.length_append] at h2
  have h3 : ("-root" : String).length = 5 := rfl
  rw [h3] at h2
  omega

theorem keysOfList_nil {α : Type} : keysOfList ([] : List (String × α)) = [] := rfl

theorem keysOfList_cons {α : Type} (a : String) (b : α) (t : List (String × α)) :
    keysOfList ((a, b) :: t) = a :: keysOfList t := rfl

theorem keysOf_some {α : Type} (l : List (String × α)) :
    keysOf (some l) = keysOfList l := rfl

theorem firstKeyD_nil {α : Type} : firstKeyD ([] : List (String × α)) = "" := rfl

theorem firstKeyD_cons {α : Type} (k : String) (v : α) (t : List (String × α)) :
    firstKeyD ((k, v) :: t) = k := rfl

theorem mem_keys_eraseKey {α : Type} (x k : String) (l : List (String × α))
    (hne : x ≠ k) (hx : x ∈ keysOfList l) : x ∈ keysOfList (eraseKey k l) := by
  induction l with
  | nil => exact absurd hx (by simp [keysOfList_nil])
  | cons p t ih =>
    obtain ⟨a, b⟩ := p
    rw [keysOfList_cons] at hx
    rcases List.mem_cons.mp hx with h | h
    · have hak : a ≠ k := by rw [← h]; exact hne
      rw [eraseKey, if_neg hak, keysOfList_cons]
      exact List.mem_cons.mpr (Or.inl h)
    · by_cases hak : a = k
      · rw [eraseKey, if_pos hak]; exact h
      · rw [eraseKey, if_neg hak, keysOfList_cons]
        exact List.mem_cons.mpr (Or.inr (ih h))

theorem alookup_some_mem_keys {α : Type} (k : String) (l : List (String × α)) (v : α)
    (h : alookup k l = some v) : k ∈ keysOfList l := by
  induction l with
  | nil => simp [alookup] at h
  | cons p t ih =>
    obtain ⟨a, b⟩ := p
    by_cases hak : a = k
    · rw [keysOfList_cons]; exact List.mem_cons.mpr (Or.inl hak.symm)
    · rw [alookup, if_neg hak] at h
      rw [keysOfList_cons]
      exact List.mem_cons.mpr (Or.inr (ih h))

theorem keysOfList_eq_nil {α : Type} (l : List (String × α)) (h : keysOfList l = []) :
    l = [] := by
  cases l with
  | nil => rfl
  | cons p t => obtain ⟨a, b⟩ := p; rw [keysOfList_cons] at h; simp at h

theorem getFile_setFile (fs : HostFS) (p : String) (c : FileContent) :
    getFile (setFile fs p c) p = some c := by
  simp [getFile, setFile, alookup]

theorem foldl_append_cmdline {α β : Type} (f : α → List β) (l : List α) (init : List β) :
    l.foldl (fun a x => a ++ f x) init = init ++ (l.map f).flatten := by
  induction l generalizing init with
  | nil => simp
  | cons x xs ih => simp [List.foldl_cons, ih, List.append_assoc]

/-! ## Registry loop lemmas -/

theorem snDeleteLoop_default_cleared :
    ∀ (names : List String) (cfg cfg1 : ConnectionsFile),
      snDeleteLoop cfg names = .ok cfg1 →
      (cfg.Default ∈ names ∨ cfg.Default = "") → cfg1.Default = "" := by
  intro names
  induction names with
  | nil =>
    intro cfg cfg1 h hd
    simp [snDeleteLoop] at h
    rcases hd with hd | hd
    · simp at hd
    · rw [← h]; exact hd
  | cons name rest ih =>
    intro cfg cfg1 h hd
    rw [snDeleteLoop] at h
    cases hl : mapLookup name cfg.Connections with
    | none => rw [hl] at h; simp at h
    | some v =>
      rw [hl] at h
      simp at h
      apply ih _ _ h
      by_cases hdn : cfg.Default = name
      · right; simp [hdn]
      · rcases hd with hd | hd
        · left
          simp only [hdn, if_neg hdn]
          rcases List.mem_cons.mp hd with h1 | h1
          · exact absurd h1 hdn
          · exact h1
        · right; simp [hdn, hd]

theorem snDeleteLoop_invar :
    ∀ (names : List String) (cfg cfg1 : ConnectionsFile),
      snDeleteLoop cfg names = .ok cfg1 → invarCF cfg → invarCF cfg1 := by
  intro names
  induction names with
  | nil =>
    intro cfg cfg1 h hi
    simp [snDeleteLoop] at h
    rw [← h]; exact hi
  | cons name rest ih =>
    intro cfg cfg1 h hi
    rw [snDeleteLoop] at h
    cases hl : mapLookup name cfg.Connections with
    | none => rw [hl] at h; simp at h
    | some v =>
      rw [hl] at h
      simp at h
      apply ih _ _ h
      by_cases hdn : cfg.Default = name
      · left; simp [hdn]
      · rcases hi with hi | hi
        · left; simp [hdn, hi]
        · right
          cases hc : cfg.Connections with
          | none => rw [hc] at hl; simp [mapLookup] at hl
          | some l =>
            rw [hc] at hi
            rw [keysOf_some] at hi
            show (if cfg.Default = name then "" else cfg.Default) ∈
              keysOf ((some l).map (eraseKey name))
            rw [if_neg hdn]
            show cfg.Default ∈ keysOf (some (eraseKey name l))
            rw [keysOf_some]
            exact mem_keys_eraseKey _ _ _ hdn hi

theorem legacyStep_P (cfg : EngineCfg) (name : String) (rest : List String)
    (l : List (String × Destination)) (v : Destination)
    (hc : cfg.ServiceDestinations = some l) (hl : alookup name l = some v)
    (hp : strandedDefault cfg ∨ cfg.ActiveService ∈ name :: rest) :
    strandedDefault ⟨if cfg.ActiveService = name then firstKeyD (eraseKey name l)
        else cfg.ActiveService, some (eraseKey name l)⟩ ∨
      (if cfg.ActiveService = name then firstKeyD (eraseKey name l)
        else cfg.ActiveService) ∈ rest := by
  dsimp only [strandedDefault]
  rw [keysOf_some]
  by_cases han : cfg.ActiveService = name
  · rw [if_pos han]
    left
    cases he : eraseKey name l with
    | nil => right; rw [firstKeyD_nil, keysOfList_nil]; exact ⟨rfl, rfl⟩
    | cons p t =>
      obtain ⟨k, d⟩ := p
      left
      rw [firstKeyD_cons, keysOfList_cons]
      exact List.mem_cons.mpr (Or.inl rfl)
  · rw [if_neg han]
    rcases hp with hp | hp
    · left
      rcases hp with hp | hp
      · rw [hc, keysOf_some] at hp
        left
        exact mem_keys_eraseKey _ _ _ han hp
      · exfalso
        rw [hc, keysOf_some] at hp
        rw [keysOfList_eq_nil l hp.2] at hl
        simp [alookup] at hl
    · rcases List.mem_cons.mp hp with h1 | h1
      · exact absurd h1 han
      · right; exact h1

theorem legacyStep_invar (cfg : EngineCfg) (name : String)
    (l : List (String × Destination))
    (hc : cfg.ServiceDestinations = some l)
    (hi : invarE cfg) :
    invarE ⟨if cfg.ActiveService = name then firstKeyD (eraseKey name l)
      else cfg.ActiveService, some (eraseKey name l)⟩ := by
  dsimp only [invarE]
  rw [keysOf_some]
  by_cases han : cfg.ActiveService = name
  · rw [if_pos han]
    cases he : eraseKey name l with
    | nil => left; rw [firstKeyD_nil]
    | cons p t =>
      obtain ⟨k, d⟩ := p
      right
      rw [firstKeyD_cons, keysOfList_cons]
      exact List.mem_cons.mpr (Or.inl rfl)
  · rw [if_neg han]
    rcases hi with hi | hi
    · left; exact hi
    · right
      rw [hc, keysOf_some] at hi
      exact mem_keys_eraseKey _ _ _ han hi

theorem legacyRemoveLoop_P :
    ∀ (names : List String) (cfg cfg1 : EngineCfg),
      legacyRemoveLoop cfg names = .ok cfg1 →
      (strandedDefault cfg ∨ cfg.ActiveService ∈ names) → strandedDefault cfg1 := by
  intro names
  induction names with
  | nil =>
    intro cfg cfg1 h hp
    simp [legacyRemoveLoop] at h
    rcases hp with hp | hp
    · rw [← h]; exact hp
    · simp at hp
  | cons name rest ih =>
    intro cfg cfg1 h hp
    rw [legacyRemoveLoop] at h
    split at h
    · simp at h
    · split at h
      · simp at h
      · rename_i x1 l hc x2 v hl
        simp only [] at h
        exact ih _ _ h (legacyStep_P cfg name rest l v hc hl hp)

theorem legacyRemoveLoop_invar :
    ∀ (names : List String) (cfg cfg1 : EngineCfg),
      legacyRemoveLoop cfg names = .ok cfg1 → invarE cfg → invarE cfg1 := by
  intro names
  induction names with
  | nil =>
    intro cfg cfg1 h hi
    simp [legacyRemoveLoop] at h
    rw [← h]; exact hi
  | cons name rest ih =>
    intro cfg cfg1 h hi
    rw [legacyRemoveLoop] at h
    split at h
    · simp at h
    · split at h
      · simp at h
      · rename_i x1 l hc x2 v hl
        simp only [] at h
        exact ih _ _ h (legacyStep_invar cfg name l hc hi)

theorem addConnectionLoop_cons_some (identity : String) (isDefault : Bool) (i : Nat)
    (con : ConnSpec) (rest : List ConnSpec) (d : String)
    (l : List (String × Destination)) :
    addConnectionLoop identity isDefault i (con :: rest) ⟨d, some l⟩ =
      match alookup con.name l with
      | some _ => .error (.other ("cannot overwrite connection \"" ++ con.name ++ "\""))
      | none => addConnectionLoop identity isDefault (i + 1) rest
          ⟨if isDefault ∧ i = 0 then con.name else d,
            some (l ++ [(con.name, ⟨con.uri, true, identity⟩)])⟩ := by
  cases h : alookup con.name l <;> simp [addConnectionLoop, mapLookup, h]

theorem addConnectionLoop_cons_none (identity : String) (isDefault : Bool) (i : Nat)
    (con : ConnSpec) (rest : List ConnSpec) (d : String) :
    addConnectionLoop identity isDefault i (con :: rest) ⟨d, none⟩ =
      addConnectionLoop identity isDefault (i + 1) rest
        ⟨con.name, some [(con.name, ⟨con.uri, true, identity⟩)]⟩ := rfl

theorem addConnectionLoop_default_stable :
    ∀ (rest : List ConnSpec) (identity : String) (isDefault : Bool) (i : Nat)
      (d : String) (l : List (String × Destination)) (cfg1 : ConnectionsFile),
      i ≠ 0 → addConnectionLoop identity isDefault i rest ⟨d, some l⟩ = .ok cfg1 →
      cfg1.Default = d := by
  intro rest
  induction rest with
  | nil =>
    intro identity isDefault i d l cfg1 hi h
    simp [addConnectionLoop] at h
    rw [← h]
  | cons con rest ih =>
    intro identity isDefault i d l cfg1 hi h
    rw [addConnectionLoop_cons_some] at h
    cases hl : alookup con.name l with
    | some v => rw [hl] at h; simp at h
    | none =>
      rw [hl] at h
      simp only [] at h
      rw [if_neg (by simp [hi])] at h
      exact ih identity isDefault (i + 1) d _ cfg1 (Nat.succ_ne_zero i) h

/-! ## Claim theorems -/

/-- Claim C1: `Start` issued while the state query reports `Running` fails
with the `AlreadyRunning` error (`machine.ErrVMAlreadyRunning`), does not
invoke vfkit, and leaves the machine record and the host filesystem (the
persisted record) unchanged. -/
theorem start_on_running_fails_already_running (m : MacMachine) (fs : HostFS)
    (vfkitResult : GoError) :
    m.start (.ok Status.running) fs vfkitResult =
      ⟨m, fs, false, some MachineErr.alreadyRunning⟩ := by
  simp [MacMachine.start]

/-- Claim C2: for `Set` on a stopped machine with a requested disk size `n`:
a strict shrink (`n < DiskSize`) never mutates `DiskSize` — in memory or in
the rewritten config file — and surfaces the shrink error in the returned
error list, while `n ≥ DiskSize` is applied and, when the write succeeds,
persisted to the config file. -/
theorem set_disk_shrink_rejected_grow_persisted (m : MacMachine)
    (cpus mem : Option Nat) (n : Nat) (fs : HostFS) (writeErr : GoError) :
    (n < m.DiskSize →
      (m.set (.ok Status.stopped) ⟨cpus, mem, some n⟩ fs writeErr).machine.DiskSize = m.DiskSize ∧
      (m.set (.ok Status.stopped) ⟨cpus, mem, some n⟩ fs writeErr).errs = [some shrinkErr] ∧
      (m.set (.ok Status.stopped) ⟨cpus, mem, some n⟩ fs writeErr).primary = writeErr ∧
      (writeErr = none →
        getFile (m.set (.ok Status.stopped) ⟨cpus, mem, some n⟩ fs writeErr).fs m.ConfigPath.Path =
          some (.record (m.set (.ok Status.stopped) ⟨cpus, mem, some n⟩ fs writeErr).machine)) ∧
      (∀ e, writeErr = some e →
        (m.set (.ok Status.stopped) ⟨cpus, mem, some n⟩ fs writeErr).fs = fs)) ∧
    (m.DiskSize ≤ n →
      (m.set (.ok Status.stopped) ⟨cpus, mem, some n⟩ fs writeErr).machine.DiskSize = n ∧
      (writeErr = none →
        getFile (m.set (.ok Status.stopped) ⟨cpus, mem, some n⟩ fs writeErr).fs m.ConfigPath.Path =
          some (.record (m.set (.ok Status.stopped) ⟨cpus, mem, some n⟩ fs writeErr).machine))) := by
  constructor
  · intro hlt
    cases cpus <;> cases mem <;> cases writeErr <;>
      simp [MacMachine.set, dispatchSetErrors, hlt, Nat.not_le_of_lt hlt, getFile_setFile]
  · intro hle
    cases cpus <;> cases mem <;> cases writeErr <;>
      simp [MacMachine.set, dispatchSetErrors, Nat.not_lt_of_le hle, getFile_setFile]

/-- Witness for C2: the theorem applied at a concrete stopped machine with
a 20 GB disk, once for a shrink request (10) and once for a growth request
(30), with a succeeding config write. -/
theorem set_disk_shrink_rejected_grow_persisted_witness :
    ((sampleMac.set (.ok Status.stopped) ⟨none, none, some 10⟩ [] none).machine.DiskSize = sampleMac.DiskSize ∧
      (sampleMac.set (.ok Status.stopped) ⟨none, none, some 10⟩ [] none).errs = [some shrinkErr] ∧
      (sampleMac.set (.ok Status.stopped) ⟨none, none, some 10⟩ [] none).primary = none ∧
      ((none : GoError) = none →
        getFile (sampleMac.set (.ok Status.stopped) ⟨none, none, some 10⟩ [] none).fs sampleMac.ConfigPath.Path =
          some (.record (sampleMac.set (.ok Status.stopped) ⟨none, none, some 10⟩ [] none).machine)) ∧
      (∀ e, (none : GoError) = some e →
        (sampleMac.set (.ok Status.stopped) ⟨none, none, some 10⟩ [] none).fs = [])) ∧
    ((sampleMac.set (.ok Status.stopped) ⟨none, none, some 30⟩ [] none).machine.DiskSize = 30 ∧
      ((none : GoError) = none →
        getFile (sampleMac.set (.ok Status.stopped) ⟨none, none, some 30⟩ [] none).fs sampleMac.ConfigPath.Path =
          some (.record (sampleMac.set (.ok Status.stopped) ⟨none, none, some 30⟩ [] none).machine))) :=
  ⟨(set_disk_shrink_rejected_grow_persisted sampleMac none none 10 [] none).1 (by decide),
   (set_disk_shrink_rejected_grow_persisted sampleMac none none 30 [] none).2 (by decide)⟩

/-- Claim C3: `Remove` on a machine whose state query reports `Running`,
called without the force flag, fails with the `invalid state: <name> is
running` error and performs no deletion: the host filesystem (config file,
image, keys) and the connection registry are returned unchanged. -/
theorem remove_running_without_force_rejected_no_deletion (m : MacMachine)
    (saveKeys saveIgnition saveImage : Bool) (stopResult : GoError)
    (fs : HostFS) (reg : EngineCfg) :
    m.removeFlow (.ok Status.running) ⟨false, saveKeys, saveIgnition, saveImage⟩
        stopResult fs reg =
      (fs, reg, .error (.other ("invalid state: " ++ m.Name ++ " is running"))) := by
  simp [MacMachine.removeFlow, MacMachine.remove, Except.bind]

/-- Claim C4: command synthesis is a deterministic function of the device
model (the embedding is pure, so two calls yield the same value), and for
a fully populated `QemuCmd` (non-empty `Bios`, so the optional bios
fragment is present) the result is exactly the fixed-order concatenation
memory, cpu count, firmware configs, monitor, network, serial, mounts,
display, accelerator, cpu model, boot drive, bios, machine type. -/
theorem qemu_tocmdline_deterministic_ordered (q : QemuCmd) (hb : q.Bios ≠ "") :
    q.ToCmdline = q.ToCmdline ∧ q.ToCmdline = q.orderedFragments := by
  refine ⟨rfl, ?_⟩
  by_cases hd : q.Display <;>
    simp [QemuCmd.ToCmdline, QemuCmd.orderedFragments, foldl_append_cmdline, hb, hd]

/-- Witness for C4: the theorem applied at a concrete fully populated
device model, with the `Bios ≠ ""` hypothesis discharged by evaluation. -/
theorem qemu_tocmdline_deterministic_ordered_witness :
    sampleQemuCmd.Bios ≠ "" ∧
    (sampleQemuCmd.ToCmdline = sampleQemuCmd.ToCmdline ∧
      sampleQemuCmd.ToCmdline = sampleQemuCmd.orderedFragments) :=
  ⟨by decide, qemu_tocmdline_deterministic_ordered sampleQemuCmd (by decide)⟩

/-- Claim C5 (counterexample): the `Socket` network descriptor with every
field at its zero value (`ID = ""`, `FileDescriptor = 0`) does NOT omit the
zero-valued `FileDescriptor`: the source guard is `fd >= 0`, so `fd=0` is
emitted.  This refutes "any field left at its zero value is omitted from
the serialized fragment". -/
theorem socket_zero_fd_emitted_counterexample :
    Socket.ToCmdline ⟨"", 0⟩ = "socket,id=vlan,fd=0" ∧
    Socket.ToCmdline ⟨"", 0⟩ ≠ "socket,id=vlan" := by
  constructor
  · rfl
  · decide

/-- Claim C5 (amended): for all four descriptors — firmware-config,
monitor, network-socket and filesystem-share — every STRING field left
empty is omitted from the fragment, and the emitted sub-fields are joined
with single commas, no leading or trailing comma (`joinComma` of exactly
the present sub-fields).  The filesystem share's boolean `ReadOnly` field
is likewise omitted at its zero value (`false`); the monitor's boolean
`Server`/`Wait` fields are always emitted as `on`/`off`, and the integer
`FileDescriptor` is emitted whenever it is `≥ 0`, including its zero
value. -/
theorem fragment_zero_string_fields_omitted :
    (∀ f : FirmwareConfigDevice, f.ToCmdline = ["-fw_cfg", joinComma f.presentSubfields]) ∧
    (∀ q : QmpMonitor, q.ToCmdline = ["-qmp", joinComma q.presentSubfields]) ∧
    (∀ s : Socket, s.ToCmdline = joinComma s.presentSubfields) ∧
    (∀ v : Virtfs, v.ToCmdline = ["-virtfs", joinComma v.presentSubfields]) := by
  refine ⟨fun f => ?_, fun q => ?_, fun s => ?_, fun v => ?_⟩
  · by_cases h1 : f.Name = "" <;> by_cases h2 : f.IgnitionFile.GetPath = "" <;>
      by_cases h3 : f.ConfigString = "" <;>
      simp [FirmwareConfigDevice.ToCmdline, FirmwareConfigDevice.presentSubfields, joinComma,
        h1, h2, h3, append_ne_empty_left, String.append_assoc]
  · by_cases h1 : q.Monitor.Network = "" <;> by_cases h2 : q.Monitor.Address.GetPath = "" <;>
      simp [QmpMonitor.ToCmdline, QmpMonitor.presentSubfields, joinComma,
        h1, h2, append_ne_empty_left, String.append_assoc]
  · by_cases h : s.FileDescriptor ≥ 0 <;>
      simp [Socket.ToCmdline, Socket.presentSubfields, joinComma, h, ← String.append_assoc]
  · by_cases h1 : v.Path.GetPath = "" <;> by_cases h2 : v.MountTag = "" <;>
      by_cases h3 : v.SecurityModel = "" <;> by_cases h4 : v.ReadOnly = true <;>
      simp [Virtfs.ToCmdline, Virtfs.presentSubfields, joinComma,
        h1, h2, h3, h4, ← String.append_assoc]

/-- Claim C10: `CharDev.ToCmdline` does not depend on the `ID` or `Server`
fields — any two descriptors equal except for those fields serialize to
the same vector — and the fragment always contains the literal
`server=on` and the literal identifier `id=apodman-machine-default_ready`
(the hard-coded `fmt.Sprintf("id=a%s_ready", "podman-machine-default")`),
independent of the actual VM name. -/
theorem chardev_tocmdline_ignores_id_and_server (p : VMFile) (s w : Bool) (i : String)
    (s' : Bool) (i' : String) :
    CharDev.ToCmdline ⟨p, s, w, i⟩ = CharDev.ToCmdline ⟨p, s', w, i'⟩ ∧
    CharDev.ToCmdline ⟨p, s, w, i⟩ =
      ["-chardev", (if p.GetPath ≠ "" then "socket,path=" ++ (p.GetPath ++ ",") else "") ++
        ("server=on,wait=" ++ ((if w then "on" else "off") ++ ",id=apodman-machine-default_ready"))] := by
  constructor
  · rfl
  · by_cases h : p.GetPath = "" <;>
      simp [CharDev.ToCmdline, CharDev.GetWaitStatus, h, append_ne_empty_left, String.append_assoc]
    · cases w <;> simp
    · cases w <;> simp [String.append_assoc]

/-- Claim C6 (counterexample): the first-entry-becomes-default rule fires
only when the connections map is Go-`nil`.  On a registry that has no
entries but an initialized (non-nil, empty) map — the state left behind
after removing every connection — adding `"dev"` with `makeDefault=false`
does NOT make `"dev"` the default: the default stays `""`. -/
theorem addconnection_empty_map_counterexample :
    addConnection [⟨"dev", "ssh://core@localhost:22/run/podman/podman.sock"⟩] "/keys/dev" false
        ⟨"", some []⟩ =
      .ok ⟨"", some [("dev", ⟨"ssh://core@localhost:22/run/podman/podman.sock", true, "/keys/dev"⟩)]⟩ ∧
    (⟨"", some [("dev", ⟨"ssh://core@localhost:22/run/podman/podman.sock", true, "/keys/dev"⟩)]⟩ :
      ConnectionsFile).Default ≠ "dev" := by
  constructor
  · rfl
  · decide

/-- Claim C6 (amended): on a registry whose mapping is uninitialized
(Go-`nil`), the first added entry becomes the default regardless of the
`makeDefault` flag — for both the connections-file `addConnection` and the
legacy `AddConnection`. -/
theorem addconnection_nil_map_first_entry_default :
    (∀ (c : ConnSpec) (rest : List ConnSpec) (identity : String) (isDefault : Bool)
        (d : String) (cfg1 : ConnectionsFile),
      addConnection (c :: rest) identity isDefault ⟨d, none⟩ = .ok cfg1 →
      cfg1.Default = c.name) ∧
    (∀ (uriStr name identity : String) (isDefault : Bool) (a : String) (cfg1 : EngineCfg),
      legacyAddConnection uriStr name identity isDefault ⟨a, none⟩ = .ok cfg1 →
      cfg1.ActiveService = name) := by
  constructor
  · intro c rest identity isDefault d cfg1 h
    by_cases hid : identity = ""
    · rw [addConnection, if_pos hid] at h
      simp at h
    · rw [addConnection, if_neg hid, addConnectionLoop_cons_none] at h
      exact addConnectionLoop_default_stable rest identity isDefault 1 c.name _ cfg1
        (Nat.succ_ne_zero 0) h
  · intro uriStr name identity isDefault a cfg1 h
    by_cases hid : identity = ""
    · rw [legacyAddConnection, if_pos hid] at h
      simp at h
    · rw [legacyAddConnection, if_neg hid] at h
      simp [mapLookup] at h
      rw [← h]

/-- Witness for C6 (amended): one connection added with `makeDefault=false`
to a nil-map registry becomes the default, in both registries. -/
theorem addconnection_nil_map_first_entry_default_witness :
    (⟨"dev", some [("dev", ⟨"ssh://core@localhost:22/run/podman/podman.sock", true, "/keys/dev"⟩)]⟩ :
        ConnectionsFile).Default = "dev" ∧
    (⟨"dev-root", some [("dev-root", ⟨"ssh://root@localhost:22/run/podman/podman.sock", true, "/keys/dev"⟩)]⟩ :
        EngineCfg).ActiveService = "dev-root" :=
  ⟨addconnection_nil_map_first_entry_default.1
      ⟨"dev", "ssh://core@localhost:22/run/podman/podman.sock"⟩ [] "/keys/dev" false "x"
      ⟨"dev", some [("dev", ⟨"ssh://core@localhost:22/run/podman/podman.sock", true, "/keys/dev"⟩)]⟩ rfl,
   addconnection_nil_map_first_entry_default.2
      "ssh://root@localhost:22/run/podman/podman.sock" "dev-root" "/keys/dev" false "y"
      ⟨"dev-root", some [("dev-root", ⟨"ssh://root@localhost:22/run/podman/podman.sock", true, "/keys/dev"⟩)]⟩ rfl⟩

/-- Claim C7: removing the entry currently selected as default leaves the
default naming some entry still present in the mapping, or `""` if no
entries remain, and a successful removal preserves the invariant that a
non-empty default names a present entry — for both cited functions:
`setNewDefaultConnection` (connections-file registry) and the legacy
`RemoveConnections`. -/
theorem remove_default_connection_reassigns_or_clears :
    (∀ (cfg : ConnectionsFile) (names : List String) (cfg1 : ConnectionsFile)
        (dest : Option Destination) (service : String),
      setNewDefaultConnection cfg names = .ok (cfg1, dest, service) →
      (cfg.Default ∈ names →
        cfg1.Default ∈ keysOf cfg1.Connections ∨
          (cfg1.Default = "" ∧ keysOf cfg1.Connections = [])) ∧
      (invarCF cfg → invarCF cfg1)) ∧
    (∀ (cfg : EngineCfg) (names : List String) (cfg1 : EngineCfg),
      legacyRemoveConnections cfg names = .ok cfg1 →
      (cfg.ActiveService ∈ names →
        cfg1.ActiveService ∈ keysOf cfg1.ServiceDestinations ∨
          (cfg1.ActiveService = "" ∧ keysOf cfg1.ServiceDestinations = [])) ∧
      (invarE cfg → invarE cfg1)) := by
  constructor
  · intro cfg names cfg1 dest service h
    rw [setNewDefaultConnection] at h
    cases hsl : snDeleteLoop cfg names with
    | error e => rw [hsl] at h; simp [Except.map] at h
    | ok cfg2 =>
      rw [hsl] at h
      simp [Except.map] at h
      cases hc : cfg2.Connections with
      | none =>
        rw [hc] at h
        simp at h
        obtain ⟨h1, h2, h3⟩ := h
        constructor
        · intro hmem
          right
          have hd := snDeleteLoop_default_cleared names cfg cfg2 hsl (Or.inl hmem)
          rw [← h1, hc]
          exact ⟨hd, rfl⟩
        · intro hinv
          have := snDeleteLoop_invar names cfg cfg2 hsl hinv
          rw [← h1]
          exact this
      | some l =>
        cases l with
        | nil =>
          rw [hc] at h
          simp at h
          obtain ⟨h1, h2, h3⟩ := h
          constructor
          · intro hmem
            right
            have hd := snDeleteLoop_default_cleared names cfg cfg2 hsl (Or.inl hmem)
            rw [← h1, hc]
            exact ⟨hd, rfl⟩
          · intro hinv
            have := snDeleteLoop_invar names cfg cfg2 hsl hinv
            rw [← h1]
            exact this
        | cons p t =>
          obtain ⟨k, d⟩ := p
          rw [hc] at h
          simp at h
          obtain ⟨h1, h2, h3⟩ := h
          constructor
          · intro hmem
            left
            rw [← h1]
            show k ∈ keysOf (some ((k, d) :: t))
            rw [keysOf_some, keysOfList_cons]
            exact List.mem_cons.mpr (Or.inl rfl)
          · intro hinv
            rw [← h1]
            right
            show k ∈ keysOf (some ((k, d) :: t))
            rw [keysOf_some, keysOfList_cons]
            exact List.mem_cons.mpr (Or.inl rfl)
  · intro cfg names cfg1 h
    constructor
    · intro hmem
      exact legacyRemoveLoop_P names cfg cfg1 h (Or.inr hmem)
    · intro hinv
      exact legacyRemoveLoop_invar names cfg cfg1 h hinv

/-- Witness for C7: removing `"a"`, the current default, from a registry
holding `"a"` and `"b"` reassigns the default to `"b"`, a present entry,
and the invariant holds afterwards. -/
theorem remove_default_connection_reassigns_or_clears_witness :
    ((⟨"b", some [("b", dstB)]⟩ : ConnectionsFile).Default ∈
        keysOf (⟨"b", some [("b", dstB)]⟩ : ConnectionsFile).Connections ∨
      ((⟨"b", some [("b", dstB)]⟩ : ConnectionsFile).Default = "" ∧
        keysOf (⟨"b", some [("b", dstB)]⟩ : ConnectionsFile).Connections = [])) ∧
    invarCF ⟨"b", some [("b", dstB)]⟩ := by
  have h := remove_default_connection_reassigns_or_clears.1
    ⟨"a", some [("a", dstA), ("b", dstB)]⟩ ["a"]
    ⟨"b", some [("b", dstB)]⟩ (some dstB) "b" rfl
  exact ⟨h.1 (by decide), h.2 (Or.inr (by decide))⟩

/-- Claim C8: the `Set` error convention.  In general, whenever the
collected `setErrors` list has two or more entries, the switch returns all
entries except the last as the list and promotes the last alone to the
primary return value; instantiated on `Set` itself, a shrink request makes
the collected list `[shrink error, write result]`, so the call returns
`[shrink error]` with the write result — Go `nil` included — promoted. -/
theorem set_errors_all_but_last_promoted :
    (∀ setErrors : List GoError, 2 ≤ setErrors.length →
      dispatchSetErrors setErrors = (setErrors.dropLast, setErrors.getLastD none)) ∧
    (∀ (m : MacMachine) (cpus mem : Option Nat) (n : Nat) (fs : HostFS) (writeErr : GoError),
      n < m.DiskSize →
      (m.set (.ok Status.stopped) ⟨cpus, mem, some n⟩ fs writeErr).errs =
          ([some shrinkErr, writeErr] : List GoError).dropLast ∧
      (m.set (.ok Status.stopped) ⟨cpus, mem, some n⟩ fs writeErr).primary =
          ([some shrinkErr, writeErr] : List GoError).getLastD none) := by
  constructor
  · intro setErrors hlen
    rw [dispatchSetErrors, if_neg (by omega), if_neg (by omega)]
  · intro m cpus mem n fs writeErr hlt
    cases cpus <;> cases mem <;> cases writeErr <;>
      simp [MacMachine.set, dispatchSetErrors, hlt, Nat.not_le_of_lt hlt]

/-- Witness for C8: the dispatch applied to the concrete two-element list
`[shrink error, nil]`, and `Set` applied to a concrete machine with a
shrink request and a succeeding write. -/
theorem set_errors_all_but_last_promoted_witness :
    dispatchSetErrors [some shrinkErr, none] =
      (([some shrinkErr, none] : List GoError).dropLast,
        ([some shrinkErr, none] : List GoError).getLastD none) ∧
    ((sampleMac.set (.ok Status.stopped) ⟨none, none, some 10⟩ [] none).errs =
        ([some shrinkErr, none] : List GoError).dropLast ∧
      (sampleMac.set (.ok Status.stopped) ⟨none, none, some 10⟩ [] none).primary =
        ([some shrinkErr, none] : List GoError).getLastD none) :=
  ⟨set_errors_all_but_last_promoted.1 [some shrinkErr, none] (by decide),
   set_errors_all_but_last_promoted.2 sampleMac none none 10 [] none (by decide)⟩

/-- Claim C9 (counterexample): removing `"b"` — not the default — from a
registry `{a (machine-origin), b}` with default `"a"` and a `machines`
table marking `"a"` rootful yields default `"a-root"`, which is NOT a
remaining entry: the rootful-preference flip in `RemoveConnections` can
move the default off the entry picked by `setNewDefaultConnection`. -/
theorem removeconnections_root_flip_counterexample :
    removeConnectionsCF [("a", true)] ⟨"a", some [("a", dstA), ("b", dstB)]⟩ ["b"] =
      .ok ⟨"a-root", some [("a", dstA)]⟩ ∧
    ¬ ("a-root" ∈ keysOfList [("a", dstA)]) := by
  constructor
  · rfl
  · decide

/-- Claim C9 (amended): after a successful connections-file
`RemoveConnections` with at least one remaining entry, the default is
reassigned to the first remaining entry in map-iteration order — or that
entry's `-root` counterpart when the rootful-preference adjustment fires —
regardless of whether any removed name was the previous default; in
particular the previous default is not preserved across removal of
unrelated entries. -/
theorem removeconnections_default_first_remaining_or_root :
    ∀ (machines : List (String × Bool)) (cfg : ConnectionsFile) (names : List String)
      (cfg1 : ConnectionsFile) (k : String) (d : Destination)
      (t : List (String × Destination)) (cfg2 : ConnectionsFile),
      snDeleteLoop cfg names = .ok cfg1 →
      cfg1.Connections = some ((k, d) :: t) →
      removeConnectionsCF machines cfg names = .ok cfg2 →
      cfg2.Connections = some ((k, d) :: t) ∧
        (cfg2.Default = k ∨ cfg2.Default = k ++ "-root") := by
  intro machines cfg names cfg1 k d t cfg2 h1 h2 h3
  have hs : setNewDefaultConnection cfg names = .ok (⟨k, some ((k, d) :: t)⟩, some d, k) := by
    rw [setNewDefaultConnection, h1]
    simp [Except.map]
    rw [h2]
  rw [removeConnectionsCF, hs] at h3
  simp only [] at h3
  cases hm : alookup k machines with
  | none =>
    rw [hm] at h3
    simp at h3
    rw [← h3]
    exact ⟨rfl, Or.inl rfl⟩
  | some rootful =>
    rw [hm] at h3
    simp only [] at h3
    by_cases him : d.IsMachine
    · rw [if_pos him] at h3
      simp at h3
      rw [updateConnectionIfDefault] at h3
      by_cases hr : rootful
      · rw [if_pos (by exact ⟨rfl, hr⟩)] at h3
        rw [← h3]
        exact ⟨rfl, Or.inr rfl⟩
      · rw [if_neg (by intro hx; exact hr hx.2)] at h3
        rw [if_neg (by intro hx; exact append_root_ne k hx.1)] at h3
        rw [← h3]
        exact ⟨rfl, Or.inl rfl⟩
    · rw [if_neg him] at h3
      simp at h3
      rw [← h3]
      exact ⟨rfl, Or.inl rfl⟩

/-- Witness for C9 (amended): removing `"b"` (not the default) with an
empty `machines` table leaves the registry `{a}` with default `"a"`, the
first remaining entry — the conclusion of the amended theorem at a
concrete input. -/
theorem removeconnections_default_first_remaining_or_root_witness :
    (⟨"a", some [("a", dstA)]⟩ : ConnectionsFile).Connections = some [("a", dstA)] ∧
      ((⟨"a", some [("a", dstA)]⟩ : ConnectionsFile).Default = "a" ∨
        (⟨"a", some [("a", dstA)]⟩ : ConnectionsFile).Default = "a" ++ "-root") :=
  removeconnections_default_first_remaining_or_root [] ⟨"a", some [("a", dstA), ("b", dstB)]⟩ ["b"]
    ⟨"a", some [("a", dstA)]⟩ "a" dstA [] ⟨"a", some [("a", dstA)]⟩ rfl rfl rfl

end Podman
